import Mathlib

/-!
Verification of `src/databricks/labs/ucx/support/listing.py`.

The remote workspace namespace is modelled as a finitely-branching tree of
`ObjectInfo` records (`WTree`): `get_status(start_path)` returns the root's
info and `workspace.list(path, recursive=False)` returns the infos of the
node's immediate children.  The `WorkspaceListing` instance state
(`__init__`) is the record `WalkState`; wall-clock instants are abstract
`Nat` ticks.  The executor loop of `walk` is modelled as a sequential
worklist (`walkLoop`): the schedule in which `wait(..., FIRST_COMPLETED)`
delivers finished futures only permutes the order of appends to the shared
accumulators, so the multiset-level claims are settled on the FIFO
schedule.  Remote listing calls are recorded in the ghost trace field
`listed`.
-/

/-- The SDK enum `databricks.sdk.service.workspace.ObjectType`; `OTHER` stands for any
member of the SDK enum not named in `_convert_object_type_to_request_type`
(e.g. `DASHBOARD`). -/
inductive ObjectType where
  | NOTEBOOK
  | DIRECTORY
  | LIBRARY
  | REPO
  | FILE
  | OTHER
deriving DecidableEq

/-- The SDK record `databricks.sdk.service.workspace.ObjectInfo`, restricted to the fields
the listing module reads: `object_id`, `path`, `object_type` (which may be
absent). -/
structure ObjectInfo where
  object_id : Nat
  path : String
  object_type : Option ObjectType
deriving DecidableEq

/-- Modelled from the spec: `RequestObjectType` lives in
`databricks.labs.ucx.inventory.types`, which is not among the sources; the
spec lists exactly the variants NOTEBOOKS, DIRECTORIES, REPOS, FILES,
AUTHORIZATION for the output records. -/
inductive RequestObjectType where
  | NOTEBOOKS
  | DIRECTORIES
  | REPOS
  | FILES
  | AUTHORIZATION
deriving DecidableEq

/-- Modelled from the spec: `GenericPermissionsInfo` lives in
`databricks.labs.ucx.support.permissions`, which is not among the sources;
the spec describes the output record as an `(object_id, request_type)`
pair. -/
structure GenericPermissionsInfo where
  object_id : String
  request_type : RequestObjectType
deriving DecidableEq

/-- The test `x.object_type == ObjectType.DIRECTORY` used throughout the
module. -/
def isDirectory (o : ObjectInfo) : Bool :=
  o.object_type == some ObjectType.DIRECTORY

/-- A synthetic remote workspace tree: a node's info plus the subtrees of
its immediate children, in the order the remote `list` call returns them. -/
inductive WTree where
  | node (info : ObjectInfo) (children : List WTree)

def WTree.info : WTree → ObjectInfo
  | .node i _ => i

def WTree.children : WTree → List WTree
  | .node _ cs => cs

mutual

/-- Number of objects in the subtree, the root included. -/
def WTree.size : WTree → Nat
  | .node _ cs => 1 + sizeL cs

def sizeL : List WTree → Nat
  | [] => 0
  | t :: ts => WTree.size t + sizeL ts

end

mutual

/-- Preorder listing of every info in the subtree, the root included: the
objects reachable from the root. -/
def WTree.allInfos : WTree → List ObjectInfo
  | .node i cs => i :: allInfosL cs

def allInfosL : List WTree → List ObjectInfo
  | [] => []
  | t :: ts => WTree.allInfos t ++ allInfosL ts

end

mutual

/-- The infos whose paths `walk` lists once the node is expanded: the node
itself, then recursively every DIRECTORY child, which gets its own
expansion task. -/
def WTree.expTrace : WTree → List ObjectInfo
  | .node i cs => i :: expTraceL cs

def expTraceL : List WTree → List ObjectInfo
  | [] => []
  | t :: ts => (if isDirectory t.info then WTree.expTrace t else []) ++ expTraceL ts

end

mutual

/-- Well-formed remote namespace: an object that is not a DIRECTORY has no
children. -/
def WTree.wfb : WTree → Bool
  | .node i cs => (isDirectory i || cs.isEmpty) && wfbL cs

def wfbL : List WTree → Bool
  | [] => true
  | t :: ts => WTree.wfb t && wfbL ts

end

/-- The mutable state of a `WorkspaceListing` instance, as set up by
`__init__` and mutated by `walk`/`_progress_report`.  `listed` is a ghost
trace recording the argument of every `_list_workspace` remote call. -/
structure WalkState where
  start_time : Option Nat
  results : List ObjectInfo
  num_threads : Nat
  with_directories : Bool
  counter : Nat
  listed : List ObjectInfo
deriving DecidableEq

/-- Constructor `WorkspaceListing.__init__(ws, num_threads, with_directories=...)`. -/
def WorkspaceListing.init (num_threads : Nat) (with_directories : Bool) : WalkState :=
  { start_time := none
    results := []
    num_threads := num_threads
    with_directories := with_directories
    counter := 0
    listed := [] }

/-- Method `WorkspaceListing._list_and_analyze(obj)`: list the node's children
(one `_list_workspace` remote call) and partition them into DIRECTORY
vs. other objects.  The `groupby` over the listing with key
`object_type == DIRECTORY`, extending one accumulator per group, is
order-preserving bucketing, i.e. a stable partition. -/
def listAndAnalyze (t : WTree) : List WTree × List WTree :=
  (t.children.filter (fun c => isDirectory c.info),
   t.children.filter (fun c => !isDirectory c.info))

/-- The `while futures_to_objects:` loop of `walk`, on the FIFO schedule:
the head of the frontier is the next future delivered by `wait`.  Its task
result `(directories, others)` is appended to `results` (directories
first, exactly as in the source), the done-callback `_progress_report`
bumps `counter`, and one new expansion task per DIRECTORY child is
submitted, growing the frontier. -/
def walkLoop : List WTree → WalkState → WalkState
  | [], s => s
  | t :: rest, s =>
    let dirs := (listAndAnalyze t).1
    let others := (listAndAnalyze t).2
    walkLoop (rest ++ dirs)
      { s with
        results := s.results ++ dirs.map WTree.info ++ others.map WTree.info
        counter := s.counter + 1
        listed := s.listed ++ [t.info] }
termination_by f _ => sizeL f
decreasing_by
  have h2 : WTree.size t = 1 + sizeL t.children := by cases t; rfl
  have happ : ∀ a b : List WTree, sizeL (a ++ b) = sizeL a + sizeL b := by
    intro a b
    induction a with
    | nil => simp [sizeL]
    | cons x xs ih => simp [sizeL, ih]; omega
  have hfil : sizeL ((listAndAnalyze t).1) ≤ sizeL t.children := by
    simp only [listAndAnalyze]
    induction t.children with
    | nil => simp [sizeL]
    | cons x xs ih =>
      by_cases h : isDirectory x.info
      · simp [List.filter_cons, h, sizeL]; omega
      · simp [List.filter_cons, h, sizeL]; omega
  simp [sizeL, happ]
  omega

/-- Method `WorkspaceListing.walk(start_path)`: record the start time, fetch the
root via `get_status` (here: read the tree's root info), append it to
`results`, drain the executor loop seeded with the root's expansion task,
and finally call `_progress_report(None)` once more. -/
def WorkspaceListing.walk (tree : WTree) (t0 : Nat) (s : WalkState) : WalkState :=
  let s1 := { s with start_time := some t0 }
  let root_object := tree.info
  let s2 := { s1 with results := s1.results ++ [root_object] }
  let s3 := walkLoop [tree] s2
  { s3 with counter := s3.counter + 1 }

/-- The executor loop when a remote listing may fail: `failAt i` is the
error `_list_workspace` raises when asked to list the node with info `i`
(`none` = the call succeeds).  A failing future still runs its
done-callback (`counter` is bumped) but `future.result()` re-raises, so
the loop unwinds with the error; entries appended by earlier completed
tasks stay in `results`. -/
def walkLoopE (failAt : ObjectInfo → Option String) :
    List WTree → WalkState → WalkState × Option String
  | [], s => (s, none)
  | t :: rest, s =>
    match failAt t.info with
    | some e =>
      ({ s with counter := s.counter + 1, listed := s.listed ++ [t.info] }, some e)
    | none =>
      let dirs := (listAndAnalyze t).1
      let others := (listAndAnalyze t).2
      walkLoopE failAt (rest ++ dirs)
        { s with
          results := s.results ++ dirs.map WTree.info ++ others.map WTree.info
          counter := s.counter + 1
          listed := s.listed ++ [t.info] }
termination_by f _ => sizeL f
decreasing_by
  have h2 : WTree.size t = 1 + sizeL t.children := by cases t; rfl
  have happ : ∀ a b : List WTree, sizeL (a ++ b) = sizeL a + sizeL b := by
    intro a b
    induction a with
    | nil => simp [sizeL]
    | cons x xs ih => simp [sizeL, ih]; omega
  have hfil : sizeL ((listAndAnalyze t).1) ≤ sizeL t.children := by
    simp only [listAndAnalyze]
    induction t.children with
    | nil => simp [sizeL]
    | cons x xs ih =>
      by_cases h : isDirectory x.info
      · simp [List.filter_cons, h, sizeL]; omega
      · simp [List.filter_cons, h, sizeL]; omega
  simp [sizeL, happ]
  omega

/-- Variant of `walk` when remote calls may fail: `rootFail` is the error
`get_status(start_path)` raises, if any — it fires before the root is
appended.  A raised error aborts the walk before the final
`_progress_report(None)`; the second component is the exception the
caller of `walk` observes in place of a return value. -/
def WorkspaceListing.walkE (tree : WTree) (rootFail : Option String)
    (failAt : ObjectInfo → Option String) (t0 : Nat) (s : WalkState) :
    WalkState × Option String :=
  let s1 := { s with start_time := some t0 }
  match rootFail with
  | some e => (s1, some e)
  | none =>
    let s2 := { s1 with results := s1.results ++ [tree.info] }
    match walkLoopE failAt [tree] s2 with
    | (s3, some e) => (s3, some e)
    | (s3, none) => ({ s3 with counter := s3.counter + 1 }, none)

/-- Function `_convert_object_type_to_request_type(_object)`.  The Python `match`
has no catch-all arm: an `object_type` outside the listed cases falls
through and the function implicitly returns `None`. -/
def convert_object_type_to_request_type (o : ObjectInfo) : Option RequestObjectType :=
  match o.object_type with
  | some ObjectType.NOTEBOOK => some RequestObjectType.NOTEBOOKS
  | some ObjectType.DIRECTORY => some RequestObjectType.DIRECTORIES
  | some ObjectType.LIBRARY => none
  | some ObjectType.REPO => some RequestObjectType.REPOS
  | some ObjectType.FILE => some RequestObjectType.FILES
  | none => none
  | some ObjectType.OTHER => none

/-- An mlflow experiment tag (`key`/`value` pair). -/
structure Tag where
  key : String
  value : String
deriving DecidableEq

/-- An mlflow experiment: its tag list may be absent (`None`) as well as
empty; Python's `if experiment.tags:` is false in both cases. -/
structure Experiment where
  experiment_id : String
  tags : Option (List Tag)
deriving DecidableEq

/-- The generator body of `experiments_listing(ws)`: filter the registry's
experiments, dropping every experiment whose tags mark it as
notebook-backed (`nb_tag`) or repo-notebook-backed (`repo_nb_tag`). -/
def experiments_listing (experiments : List Experiment) : List Experiment :=
  experiments.filter fun e =>
    match e.tags with
    | none => true
    | some ts =>
      if ts.isEmpty then true
      else
        (ts.filter (fun t => t.key == "mlflow.experimentType" && t.value == "NOTEBOOK")).isEmpty
          && (ts.filter (fun t =>
            t.key == "mlflow.experiment.sourceType" && t.value == "REPO_NOTEBOOK")).isEmpty

/-- The generator body of `authorization_listing()`: two fixed synthetic
records. -/
def authorization_listing (_u : Unit) : List GenericPermissionsInfo :=
  ["passwords", "tokens"].map fun v =>
    { object_id := v, request_type := RequestObjectType.AUTHORIZATION }

/-- Adapter `workspace_listing(ws, num_threads, start_path)` with the
`with_directories` constructor argument left as a parameter (the source
passes `False`): build a fresh `WorkspaceListing`, walk the tree, classify
every resulting object and keep those with a truthy request type. -/
def workspace_listing_flag (with_directories : Bool) (tree : WTree)
    (t0 num_threads : Nat) : List GenericPermissionsInfo :=
  let ws_listing := WorkspaceListing.init num_threads with_directories
  (WorkspaceListing.walk tree t0 ws_listing).results.filterMap fun o =>
    match convert_object_type_to_request_type o with
    | some request_type => some { object_id := toString o.object_id, request_type := request_type }
    | none => none

/-- The generator body of `workspace_listing(ws, num_threads, start_path)`
exactly as in the source: `with_directories=False`. -/
def workspace_listing (tree : WTree) (t0 num_threads : Nat) : List GenericPermissionsInfo :=
  workspace_listing_flag false tree t0 num_threads

/-- What one drain of the executor loop adds to the instance state, as a
function of the frontier alone: first component the suffix appended to
`results`, second component the trace of listing calls (whose length is
also the number of completed tasks, i.e. what the loop adds to
`counter`). -/
def loopAdds : List WTree → List ObjectInfo × List ObjectInfo
  | [] => ([], [])
  | t :: rest =>
    let dirs := (listAndAnalyze t).1
    let others := (listAndAnalyze t).2
    let tail := loopAdds (rest ++ dirs)
    (dirs.map WTree.info ++ others.map WTree.info ++ tail.1, t.info :: tail.2)
termination_by f => sizeL f
decreasing_by
  have h2 : WTree.size t = 1 + sizeL t.children := by cases t; rfl
  have happ : ∀ a b : List WTree, sizeL (a ++ b) = sizeL a + sizeL b := by
    intro a b
    induction a with
    | nil => simp [sizeL]
    | cons x xs ih => simp [sizeL, ih]; omega
  have hfil : sizeL ((listAndAnalyze t).1) ≤ sizeL t.children := by
    simp only [listAndAnalyze]
    induction t.children with
    | nil => simp [sizeL]
    | cons x xs ih =>
      by_cases h : isDirectory x.info
      · simp [List.filter_cons, h, sizeL]; omega
      · simp [List.filter_cons, h, sizeL]; omega
  simp [sizeL, happ]
  omega

/-- Spec-side table, from the spec's words (§4.3): "NOTEBOOK → NOTEBOOKS;
DIRECTORY → DIRECTORIES; REPO → REPOS; FILE → FILES; LIBRARY → none;
absent/other type → none". -/
def classify_spec_table : Option ObjectType → Option RequestObjectType
  | some ObjectType.NOTEBOOK => some RequestObjectType.NOTEBOOKS
  | some ObjectType.DIRECTORY => some RequestObjectType.DIRECTORIES
  | some ObjectType.REPO => some RequestObjectType.REPOS
  | some ObjectType.FILE => some RequestObjectType.FILES
  | some ObjectType.LIBRARY => none
  | some ObjectType.OTHER => none
  | none => none

/-- Spec-side predicate, from the spec's words: the experiment's "tag set
marks it as notebook-backed — either a tag `{key: "mlflow.experimentType",
value: "NOTEBOOK"}` or `{key: "mlflow.experiment.sourceType", value:
"REPO_NOTEBOOK"}`" (an absent tag set contains no tag). -/
def notebookBackedMarker (e : Experiment) : Bool :=
  (e.tags.getD []).any fun t =>
    (t.key == "mlflow.experimentType" && t.value == "NOTEBOOK")
      || (t.key == "mlflow.experiment.sourceType" && t.value == "REPO_NOTEBOOK")

/-- Concrete workspace: a root directory holding a sub-directory with one
notebook, and a file. -/
def Tdemo : WTree :=
  .node { object_id := 1, path := "/", object_type := some ObjectType.DIRECTORY }
    [ .node { object_id := 2, path := "/a", object_type := some ObjectType.DIRECTORY }
        [ .node { object_id := 4, path := "/a/n", object_type := some ObjectType.NOTEBOOK } [] ],
      .node { object_id := 3, path := "/f", object_type := some ObjectType.FILE } [] ]

/-- Concrete workspace: a root directory with two non-directory children. -/
def Tflat : WTree :=
  .node { object_id := 1, path := "/", object_type := some ObjectType.DIRECTORY }
    [ .node { object_id := 2, path := "/f1", object_type := some ObjectType.FILE } [],
      .node { object_id := 3, path := "/f2", object_type := some ObjectType.NOTEBOOK } [] ]

/-- Concrete workspace: a single childless root directory. -/
def Tsing : WTree :=
  .node { object_id := 1, path := "/", object_type := some ObjectType.DIRECTORY } []

/-- A remote-failure oracle: listing the root (`object_id` 1) raises. -/
def failb (i : ObjectInfo) : Option String :=
  if i.object_id == 1 then some "bang" else none

theorem sizeL_append (a b : List WTree) : sizeL (a ++ b) = sizeL a + sizeL b := by
  induction a with
  | nil => simp [sizeL]
  | cons x xs ih => simp [sizeL, ih]; omega

theorem size_eq_children (t : WTree) : t.size = 1 + sizeL t.children := by
  cases t; rfl

theorem sizeL_cons_eq (t : WTree) (ts : List WTree) :
    sizeL (t :: ts) = t.size + sizeL ts := rfl

theorem sizeL_filter_le (p : WTree → Bool) (l : List WTree) :
    sizeL (l.filter p) ≤ sizeL l := by
  induction l with
  | nil => simp [sizeL]
  | cons x xs ih =>
    by_cases h : p x
    · simp [List.filter_cons, h, sizeL]; omega
    · simp [List.filter_cons, h, sizeL]; omega

/-- The frontier measure shrinks at each loop iteration: the expanded tree
is replaced by (a sublist of) its children. -/
theorem frontier_measure (t : WTree) (rest : List WTree) :
    sizeL (rest ++ (listAndAnalyze t).1) < sizeL (t :: rest) := by
  have h1 : sizeL ((listAndAnalyze t).1) ≤ sizeL t.children := by
    simp only [listAndAnalyze]
    exact sizeL_filter_le _ _
  have h2 := size_eq_children t
  rw [sizeL_append, sizeL_cons_eq]
  omega

theorem wfb_eq (t : WTree) :
    t.wfb = ((isDirectory t.info || t.children.isEmpty) && wfbL t.children) := by
  cases t; rfl

theorem allInfos_eq (t : WTree) : t.allInfos = t.info :: allInfosL t.children := by
  cases t; rfl

theorem expTrace_eq (t : WTree) : t.expTrace = t.info :: expTraceL t.children := by
  cases t; rfl

theorem wfbL_cons (t : WTree) (ts : List WTree) :
    wfbL (t :: ts) = (t.wfb && wfbL ts) := rfl

theorem wfbL_append (a b : List WTree) : wfbL (a ++ b) = (wfbL a && wfbL b) := by
  induction a with
  | nil => simp [wfbL]
  | cons x xs ih => simp [wfbL_cons, ih, Bool.and_assoc]

theorem wfbL_filter (p : WTree → Bool) (cs : List WTree) (h : wfbL cs = true) :
    wfbL (cs.filter p) = true := by
  induction cs with
  | nil => rfl
  | cons t ts ih =>
    rw [wfbL_cons, Bool.and_eq_true] at h
    by_cases hp : p t
    · simp [List.filter_cons, hp, wfbL_cons, h.1, ih h.2]
    · simp [List.filter_cons, hp, ih h.2]

theorem expTraceL_eq (cs : List WTree) :
    expTraceL cs = ((cs.filter fun c => isDirectory c.info).map WTree.expTrace).flatten := by
  induction cs with
  | nil => rfl
  | cons c cs ih =>
    by_cases h : isDirectory c.info <;>
      simp [expTraceL, List.filter_cons, h, ih]

theorem allInfosL_append (a b : List WTree) :
    allInfosL (a ++ b) = allInfosL a ++ allInfosL b := by
  induction a with
  | nil => rfl
  | cons t ts ih => simp [allInfosL, ih]

/-- For a well-formed forest, the objects in the forest are exactly: the
directory roots, the non-directory roots, and the descendants of the
directory roots — the decomposition one loop iteration performs. -/
theorem allInfosL_partition (cs : List WTree) (h : wfbL cs = true) :
    (↑(allInfosL cs) : Multiset ObjectInfo) =
      ↑((cs.filter fun c => isDirectory c.info).map WTree.info)
        + ↑((cs.filter fun c => !isDirectory c.info).map WTree.info)
        + ↑(((cs.filter fun c => isDirectory c.info).map fun d => allInfosL d.children).flatten) := by
  induction cs with
  | nil => simp [allInfosL]
  | cons c cs ih =>
    rw [wfbL_cons, Bool.and_eq_true] at h
    have hc := h.1
    rw [wfb_eq, Bool.and_eq_true] at hc
    have ihe := ih h.2
    by_cases hd : isDirectory c.info
    · simp only [allInfosL, List.filter_cons, hd, if_pos, Bool.not_true,
        Bool.false_eq_true, if_neg, not_false_iff, List.map_cons, List.flatten_cons,
        allInfos_eq, List.cons_append]
      simp only [← Multiset.cons_coe, ← Multiset.coe_add, ← Multiset.singleton_add, ihe]
      abel
    · have hor := hc.1
      rw [Bool.or_eq_true] at hor
      have hemp : c.children = [] := by
        rcases hor with h1 | h1
        · exact absurd h1 hd
        · exact List.isEmpty_iff.mp h1
      simp only [allInfosL, List.filter_cons, hd, Bool.false_eq_true, if_neg,
        not_false_iff, Bool.not_false, if_pos, List.map_cons,
        allInfos_eq, hemp, List.cons_append]
      simp only [show allInfosL ([] : List WTree) = [] from rfl, List.nil_append]
      simp only [← Multiset.cons_coe, ← Multiset.coe_add, ← Multiset.singleton_add, ihe]
      abel

/-- In a well-formed forest the expansion trace is, up to order, exactly
the DIRECTORY objects of the forest. -/
theorem expTraceL_filter_all (n : Nat) : ∀ cs, sizeL cs ≤ n → wfbL cs = true →
    (↑(expTraceL cs) : Multiset ObjectInfo)
      = ↑((allInfosL cs).filter fun i => isDirectory i) := by
  induction n using Nat.strong_induction_on with
  | _ n ih =>
    intro cs hn h
    match cs with
    | [] => rfl
    | c :: cs =>
      rw [wfbL_cons, Bool.and_eq_true] at h
      have hc := h.1
      rw [wfb_eq, Bool.and_eq_true] at hc
      have hszc : sizeL c.children < n := by
        have := size_eq_children c
        rw [sizeL_cons_eq] at hn
        omega
      have hszs : sizeL cs < n := by
        have h1 := size_eq_children c
        rw [sizeL_cons_eq] at hn
        omega
      have e1 := ih (sizeL c.children) hszc c.children le_rfl hc.2
      have e2 := ih (sizeL cs) hszs cs le_rfl h.2
      by_cases hd : isDirectory c.info
      · show (↑((if isDirectory c.info then WTree.expTrace c else []) ++ expTraceL cs)
            : Multiset ObjectInfo) = ↑((WTree.allInfos c ++ allInfosL cs).filter _)
        rw [if_pos hd, expTrace_eq, allInfos_eq, List.filter_append, List.filter_cons,
          if_pos (by simpa using hd), List.cons_append]
        simp only [← Multiset.cons_coe, ← Multiset.coe_add, ← Multiset.singleton_add, e1, e2]
        abel
      · have hor := hc.1
        rw [Bool.or_eq_true] at hor
        have hemp : c.children = [] := by
          rcases hor with h1 | h1
          · exact absurd h1 hd
          · exact List.isEmpty_iff.mp h1
        show (↑((if isDirectory c.info then WTree.expTrace c else []) ++ expTraceL cs)
            : Multiset ObjectInfo) = ↑((WTree.allInfos c ++ allInfosL cs).filter _)
        rw [if_neg (by simpa using hd), allInfos_eq, hemp, List.filter_append,
          List.filter_cons, if_neg (by simpa using hd)]
        simp only [show allInfosL ([] : List WTree) = [] from rfl, List.filter_nil,
          List.nil_append, e2]

/-- The preorder listing has one entry per object in the forest. -/
theorem allInfosL_length (n : Nat) : ∀ cs, sizeL cs ≤ n →
    (allInfosL cs).length = sizeL cs := by
  induction n using Nat.strong_induction_on with
  | _ n ih =>
    intro cs hn
    match cs with
    | [] => rfl
    | c :: cs =>
      have hszc : sizeL c.children < n := by
        have := size_eq_children c
        rw [sizeL_cons_eq] at hn
        omega
      have hszs : sizeL cs < n := by
        have := size_eq_children c
        rw [sizeL_cons_eq] at hn
        omega
      have e1 := ih (sizeL c.children) hszc c.children le_rfl
      have e2 := ih (sizeL cs) hszs cs le_rfl
      show ((WTree.allInfos c ++ allInfosL cs).length) = sizeL (c :: cs)
      rw [List.length_append, allInfos_eq, sizeL_cons_eq, size_eq_children]
      simp only [List.length_cons, e1, e2]
      omega

theorem allInfos_length (t : WTree) : t.allInfos.length = t.size := by
  rw [allInfos_eq, size_eq_children, List.length_cons,
    allInfosL_length (sizeL t.children) t.children le_rfl]
  omega

theorem walkLoop_cons (t : WTree) (rest : List WTree) (s : WalkState) :
    walkLoop (t :: rest) s =
      walkLoop (rest ++ (listAndAnalyze t).1)
        { s with
          results := s.results ++ (listAndAnalyze t).1.map WTree.info
            ++ (listAndAnalyze t).2.map WTree.info
          counter := s.counter + 1
          listed := s.listed ++ [t.info] } := by
  rw [walkLoop]

theorem loopAdds_cons (t : WTree) (rest : List WTree) :
    loopAdds (t :: rest) =
      ((listAndAnalyze t).1.map WTree.info ++ (listAndAnalyze t).2.map WTree.info
        ++ (loopAdds (rest ++ (listAndAnalyze t).1)).1,
       t.info :: (loopAdds (rest ++ (listAndAnalyze t).1)).2) := by
  rw [loopAdds]

/-- Full characterization of one drain of the executor loop: `start_time`,
`num_threads` and `with_directories` are untouched, `results` and `listed`
are append-only, and `counter` grows by one per completed task. -/
theorem walkLoop_full (n : Nat) : ∀ f s, sizeL f ≤ n →
    walkLoop f s =
      { start_time := s.start_time
        results := s.results ++ (loopAdds f).1
        num_threads := s.num_threads
        with_directories := s.with_directories
        counter := s.counter + (loopAdds f).2.length
        listed := s.listed ++ (loopAdds f).2 } := by
  induction n using Nat.strong_induction_on with
  | _ n ih =>
    intro f s hn
    match f with
    | [] => simp [walkLoop, loopAdds]
    | t :: rest =>
      have hlt : sizeL (rest ++ (listAndAnalyze t).1) < n :=
        lt_of_lt_of_le (frontier_measure t rest) hn
      rw [walkLoop_cons, loopAdds_cons, ih _ hlt _ _ le_rfl]
      simp only [WalkState.mk.injEq, List.append_assoc, List.length_cons,
        List.singleton_append, List.cons_append]
      refine ⟨?_, ?_, ?_, ?_, ?_, ?_⟩ <;>
        first
          | rfl
          | omega
          | simp [List.append_assoc]

theorem loopAdds_results_ms (n : Nat) : ∀ f, sizeL f ≤ n → wfbL f = true →
    (↑(loopAdds f).1 : Multiset ObjectInfo)
      = ↑((f.map fun t => allInfosL t.children).flatten) := by
  induction n using Nat.strong_induction_on with
  | _ n ih =>
    intro f hn hwf
    match f with
    | [] => simp [loopAdds]
    | t :: rest =>
      rw [wfbL_cons, Bool.and_eq_true] at hwf
      have hwt := hwf.1
      rw [wfb_eq, Bool.and_eq_true] at hwt
      have hlt : sizeL (rest ++ (listAndAnalyze t).1) < n :=
        lt_of_lt_of_le (frontier_measure t rest) hn
      have hwfd : wfbL ((listAndAnalyze t).1) = true := by
        simp only [listAndAnalyze]
        exact wfbL_filter _ _ hwt.2
      have hwfr : wfbL (rest ++ (listAndAnalyze t).1) = true := by
        rw [wfbL_append, hwf.2, hwfd]
        rfl
      have e1 := ih _ hlt (rest ++ (listAndAnalyze t).1) le_rfl hwfr
      have hpart := allInfosL_partition t.children hwt.2
      rw [loopAdds_cons]
      show (↑((listAndAnalyze t).1.map WTree.info ++ (listAndAnalyze t).2.map WTree.info
          ++ (loopAdds (rest ++ (listAndAnalyze t).1)).1) : Multiset ObjectInfo) = _
      simp only [List.map_cons, List.flatten_cons, List.map_append, List.flatten_append,
        listAndAnalyze] at e1 hpart ⊢
      simp only [← Multiset.coe_add, e1, hpart]
      abel

theorem loopAdds_listed_ms (n : Nat) : ∀ f, sizeL f ≤ n →
    (↑(loopAdds f).2 : Multiset ObjectInfo) = ↑((f.map WTree.expTrace).flatten) := by
  induction n using Nat.strong_induction_on with
  | _ n ih =>
    intro f hn
    match f with
    | [] => simp [loopAdds]
    | t :: rest =>
      have hlt : sizeL (rest ++ (listAndAnalyze t).1) < n :=
        lt_of_lt_of_le (frontier_measure t rest) hn
      have e1 := ih _ hlt (rest ++ (listAndAnalyze t).1) le_rfl
      rw [loopAdds_cons]
      show (↑(t.info :: (loopAdds (rest ++ (listAndAnalyze t).1)).2) : Multiset ObjectInfo) = _
      simp only [List.map_cons, List.flatten_cons, List.map_append, List.flatten_append]
      rw [expTrace_eq, expTraceL_eq]
      simp only [listAndAnalyze, List.cons_append] at e1 ⊢
      simp only [List.map_append, List.flatten_append] at e1
      simp only [← Multiset.cons_coe, ← Multiset.coe_add, ← Multiset.singleton_add, e1]
      abel

/-- Full characterization of `walk`: it sets the start time, appends the
root then the loop's additions to `results`, adds one `counter` tick per
expansion task plus the final `_progress_report(None)` call, and never
touches `num_threads` or `with_directories`. -/
theorem walk_eq (tree : WTree) (t0 : Nat) (s : WalkState) :
    WorkspaceListing.walk tree t0 s =
      { start_time := some t0
        results := (s.results ++ [tree.info]) ++ (loopAdds [tree]).1
        num_threads := s.num_threads
        with_directories := s.with_directories
        counter := (s.counter + (loopAdds [tree]).2.length) + 1
        listed := s.listed ++ (loopAdds [tree]).2 } := by
  simp only [WorkspaceListing.walk]
  rw [walkLoop_full (sizeL [tree]) [tree] _ le_rfl]

theorem loopAdds_one_results (tree : WTree) (h : tree.wfb = true) :
    (↑(loopAdds [tree]).1 : Multiset ObjectInfo) = ↑(allInfosL tree.children) := by
  have hw : wfbL [tree] = true := by
    rw [wfbL_cons, h]
    rfl
  have := loopAdds_results_ms (sizeL [tree]) [tree] le_rfl hw
  simpa using this

theorem loopAdds_one_listed (tree : WTree) :
    (↑(loopAdds [tree]).2 : Multiset ObjectInfo) = ↑tree.expTrace := by
  have := loopAdds_listed_ms (sizeL [tree]) [tree] le_rfl
  simpa using this

/-- Up to order, one successful `walk` appends exactly the reachable
objects of the subtree to `results`. -/
theorem walk_results_ms (tree : WTree) (t0 : Nat) (s : WalkState) (h : tree.wfb = true) :
    ((WorkspaceListing.walk tree t0 s).results : Multiset ObjectInfo)
      = ↑s.results + ↑tree.allInfos := by
  rw [walk_eq]
  show (↑((s.results ++ [tree.info]) ++ (loopAdds [tree]).1) : Multiset ObjectInfo) = _
  simp only [← Multiset.coe_add, loopAdds_one_results tree h, allInfos_eq]
  simp only [← Multiset.cons_coe, ← Multiset.singleton_add]
  abel

theorem walk_counter_eq (tree : WTree) (t0 : Nat) (s : WalkState) :
    (WorkspaceListing.walk tree t0 s).counter = s.counter + tree.expTrace.length + 1 := by
  rw [walk_eq]
  have hl : (loopAdds [tree]).2.length = tree.expTrace.length := by
    have := congrArg Multiset.card (loopAdds_one_listed tree)
    simpa using this
  simp [hl]

theorem walk_listed_ms (tree : WTree) (t0 : Nat) (s : WalkState) :
    ((WorkspaceListing.walk tree t0 s).listed : Multiset ObjectInfo)
      = ↑s.listed + ↑tree.expTrace := by
  rw [walk_eq]
  show (↑(s.listed ++ (loopAdds [tree]).2) : Multiset ObjectInfo) = _
  simp only [← Multiset.coe_add, loopAdds_one_listed tree]

theorem walk_results_length (tree : WTree) (t0 : Nat) (s : WalkState) (h : tree.wfb = true) :
    (WorkspaceListing.walk tree t0 s).results.length = s.results.length + tree.size := by
  have := congrArg Multiset.card (walk_results_ms tree t0 s h)
  simpa [allInfos_length] using this

/-- In a well-formed tree with a DIRECTORY root, the nodes that get an
expansion task are, up to order, exactly the DIRECTORY objects. -/
theorem expTrace_filter (tree : WTree) (hwf : tree.wfb = true)
    (hroot : isDirectory tree.info = true) :
    (↑tree.expTrace : Multiset ObjectInfo)
      = ↑(tree.allInfos.filter fun i => isDirectory i) := by
  have hwf2 := hwf
  rw [wfb_eq, Bool.and_eq_true] at hwf2
  rw [expTrace_eq, allInfos_eq, List.filter_cons, if_pos (by simpa using hroot)]
  simp only [← Multiset.cons_coe]
  exact congrArg (tree.info ::ₘ ·)
    (expTraceL_filter_all (sizeL tree.children) tree.children le_rfl hwf2.2)

/-- With no remote failures the fallible walk loop agrees with the plain
one and raises nothing. -/
theorem walkLoopE_none_oracle (n : Nat) : ∀ f s, sizeL f ≤ n →
    walkLoopE (fun _ => none) f s = (walkLoop f s, none) := by
  induction n using Nat.strong_induction_on with
  | _ n ih =>
    intro f s hn
    match f with
    | [] => simp [walkLoopE, walkLoop]
    | t :: rest =>
      have hlt : sizeL (rest ++ (listAndAnalyze t).1) < n :=
        lt_of_lt_of_le (frontier_measure t rest) hn
      rw [walkLoop_cons, walkLoopE]
      exact ih _ hlt _ _ le_rfl

/-- Any error the loop surfaces is one raised by a remote listing call,
propagated unchanged. -/
theorem walkLoopE_err_oracle (failAt : ObjectInfo → Option String) (n : Nat) :
    ∀ f s e, sizeL f ≤ n → (walkLoopE failAt f s).2 = some e →
      ∃ i, failAt i = some e := by
  induction n using Nat.strong_induction_on with
  | _ n ih =>
    intro f s e hn h
    match f with
    | [] => simp [walkLoopE] at h
    | t :: rest =>
      rw [walkLoopE] at h
      cases hfa : failAt t.info with
      | some e2 =>
        rw [hfa] at h
        simp at h
        exact ⟨t.info, by rw [hfa, h]⟩
      | none =>
        rw [hfa] at h
        exact ih _ (lt_of_lt_of_le (frontier_measure t rest) hn) _ _ e le_rfl h

/-- C1: For every well-formed tree (non-directories have no children) with
pairwise-distinct entries and a DIRECTORY root, `walk` on a freshly
constructed `WorkspaceListing` covers the entire subtree rooted at
`start_path`, root included: the result is a permutation of the reachable
objects (every reachable entry appears exactly once, with no duplicates),
the root entry is present even when it has zero children, the result's
size equals the total number of reachable objects including the root, and
the children of each reachable DIRECTORY entry (the root included) are
listed exactly once. -/
theorem walk_covers_subtree (tree : WTree) (t0 num_threads : Nat) (b : Bool)
    (hwf : tree.wfb = true) (hnd : tree.allInfos.Nodup)
    (hroot : isDirectory tree.info = true) :
    (WorkspaceListing.walk tree t0 (WorkspaceListing.init num_threads b)).results.Perm
        tree.allInfos
    ∧ (WorkspaceListing.walk tree t0 (WorkspaceListing.init num_threads b)).results.Nodup
    ∧ tree.info ∈ (WorkspaceListing.walk tree t0 (WorkspaceListing.init num_threads b)).results
    ∧ (WorkspaceListing.walk tree t0 (WorkspaceListing.init num_threads b)).results.length
        = tree.size
    ∧ (WorkspaceListing.walk tree t0 (WorkspaceListing.init num_threads b)).listed.Perm
        (tree.allInfos.filter fun i => isDirectory i)
    ∧ (WorkspaceListing.walk tree t0 (WorkspaceListing.init num_threads b)).listed.Nodup := by
  have hres := walk_results_ms tree t0 (WorkspaceListing.init num_threads b) hwf
  have hlis := walk_listed_ms tree t0 (WorkspaceListing.init num_threads b)
  rw [show (WorkspaceListing.init num_threads b).results = [] from rfl] at hres
  rw [show (WorkspaceListing.init num_threads b).listed = [] from rfl] at hlis
  simp only [Multiset.coe_nil, zero_add] at hres hlis
  have hperm : (WorkspaceListing.walk tree t0
      (WorkspaceListing.init num_threads b)).results.Perm tree.allInfos :=
    Multiset.coe_eq_coe.mp hres
  have hlperm : (WorkspaceListing.walk tree t0
      (WorkspaceListing.init num_threads b)).listed.Perm
        (tree.allInfos.filter fun i => isDirectory i) :=
    Multiset.coe_eq_coe.mp (by rw [hlis]; exact expTrace_filter tree hwf hroot)
  refine ⟨hperm, hperm.nodup_iff.mpr hnd, ?_, ?_, hlperm, hlperm.nodup_iff.mpr (hnd.filter _)⟩
  · exact hperm.mem_iff.mpr (by rw [allInfos_eq]; exact List.mem_cons_self _ _)
  · have := walk_results_length tree t0 (WorkspaceListing.init num_threads b) hwf
    rw [show (WorkspaceListing.init num_threads b).results = [] from rfl] at this
    simpa using this

/-- C1 witness: the concrete 4-object workspace `Tdemo`. -/
theorem walk_covers_subtree_witness :
    (Tdemo.wfb = true ∧ Tdemo.allInfos.Nodup ∧ isDirectory Tdemo.info = true)
    ∧ ((WorkspaceListing.walk Tdemo 0 (WorkspaceListing.init 20 true)).results.Perm
        Tdemo.allInfos
      ∧ (WorkspaceListing.walk Tdemo 0 (WorkspaceListing.init 20 true)).results.Nodup
      ∧ Tdemo.info ∈ (WorkspaceListing.walk Tdemo 0 (WorkspaceListing.init 20 true)).results
      ∧ (WorkspaceListing.walk Tdemo 0 (WorkspaceListing.init 20 true)).results.length
          = Tdemo.size
      ∧ (WorkspaceListing.walk Tdemo 0 (WorkspaceListing.init 20 true)).listed.Perm
          (Tdemo.allInfos.filter fun i => isDirectory i)
      ∧ (WorkspaceListing.walk Tdemo 0 (WorkspaceListing.init 20 true)).listed.Nodup) :=
  ⟨⟨by decide, by decide, by decide⟩,
   walk_covers_subtree Tdemo 0 20 true (by decide) (by decide) (by decide)⟩

theorem convert_eq_spec_table (o : ObjectInfo) :
    convert_object_type_to_request_type o = classify_spec_table o.object_type := by
  rcases o with ⟨i, p, ty⟩
  cases ty with
  | none => rfl
  | some t => cases t <;> rfl

/-- C4: the classification function is pure and total over entry types and
implements exactly the spec's fixed table (NOTEBOOK → NOTEBOOKS,
DIRECTORY → DIRECTORIES, REPO → REPOS, FILE → FILES, LIBRARY → none,
absent/other → none); being a Lean function it never fails, has no side
effects, and its result depends only on the entry's type. -/
theorem classify_matches_spec_table :
    (∀ o : ObjectInfo,
      convert_object_type_to_request_type o = classify_spec_table o.object_type)
    ∧ (∀ o1 o2 : ObjectInfo, o1.object_type = o2.object_type →
        convert_object_type_to_request_type o1 = convert_object_type_to_request_type o2) := by
  refine ⟨convert_eq_spec_table, ?_⟩
  intro o1 o2 h
  rw [convert_eq_spec_table, convert_eq_spec_table, h]

/-- C4 witness: two distinct NOTEBOOK entries classify identically. -/
theorem classify_matches_spec_table_witness :
    ((⟨1, "/n", some ObjectType.NOTEBOOK⟩ : ObjectInfo).object_type
      = (⟨2, "/m", some ObjectType.NOTEBOOK⟩ : ObjectInfo).object_type)
    ∧ convert_object_type_to_request_type ⟨1, "/n", some ObjectType.NOTEBOOK⟩
      = convert_object_type_to_request_type ⟨2, "/m", some ObjectType.NOTEBOOK⟩ :=
  ⟨rfl, classify_matches_spec_table.2 _ _ rfl⟩

theorem filter_isEmpty_eq_not_any (p : Tag → Bool) (l : List Tag) :
    (l.filter p).isEmpty = !l.any p := by
  induction l with
  | nil => rfl
  | cons t ts ih =>
    by_cases h : p t <;> simp [List.filter_cons, List.any_cons, h, ih]

theorem any_or_distrib (l : List Tag) (p q : Tag → Bool) :
    (l.any fun t => p t || q t) = (l.any p || l.any q) := by
  induction l with
  | nil => rfl
  | cons t ts ih =>
    simp only [List.any_cons, ih]
    cases p t <;> cases q t <;> simp

/-- C6: `experiments_listing` yields an experiment if and only if its tag
set contains neither the `{mlflow.experimentType: NOTEBOOK}` tag nor the
`{mlflow.experiment.sourceType: REPO_NOTEBOOK}` tag; experiments with
unrelated tags or no tags at all are yielded. -/
theorem experiments_listing_filters_notebook_backed (l : List Experiment) :
    experiments_listing l = l.filter (fun e => !notebookBackedMarker e)
    ∧ ∀ e : Experiment,
        e ∈ experiments_listing l ↔ e ∈ l ∧ notebookBackedMarker e = false := by
  have hfun : (fun e : Experiment =>
      (match e.tags with
        | none => true
        | some ts =>
          if ts.isEmpty then true
          else
            (ts.filter (fun t => t.key == "mlflow.experimentType" && t.value == "NOTEBOOK")).isEmpty
              && (ts.filter (fun t =>
                t.key == "mlflow.experiment.sourceType" && t.value == "REPO_NOTEBOOK")).isEmpty))
      = (fun e : Experiment => !notebookBackedMarker e) := by
    funext e
    rcases e with ⟨id, tags⟩
    cases tags with
    | none => rfl
    | some ts =>
      show (if ts.isEmpty then true else _) = !notebookBackedMarker ⟨id, some ts⟩
      rcases ts with _ | ⟨t, ts⟩
      · rfl
      · rw [if_neg (by simp)]
        rw [filter_isEmpty_eq_not_any, filter_isEmpty_eq_not_any]
        show _ = !(t :: ts).any _
        rw [any_or_distrib]
        cases (t :: ts).any fun t => t.key == "mlflow.experimentType" && t.value == "NOTEBOOK" <;>
          cases (t :: ts).any fun t =>
            t.key == "mlflow.experiment.sourceType" && t.value == "REPO_NOTEBOOK" <;>
          simp
  have h1 : experiments_listing l = l.filter (fun e => !notebookBackedMarker e) := by
    show l.filter _ = _
    rw [hfun]
  refine ⟨h1, ?_⟩
  intro e
  rw [h1]
  simp [List.mem_filter]

/-- C7: every call to the producer returned by `authorization_listing`
yields exactly the two records ("passwords", AUTHORIZATION) and
("tokens", AUTHORIZATION), and any two calls yield the same output. -/
theorem authorization_listing_two_fixed_records :
    (∀ u : Unit, authorization_listing u =
      [{ object_id := "passwords", request_type := RequestObjectType.AUTHORIZATION },
       { object_id := "tokens", request_type := RequestObjectType.AUTHORIZATION }])
    ∧ (∀ u v : Unit, authorization_listing u = authorization_listing v) :=
  ⟨fun _ => rfl, fun _ _ => rfl⟩

/-- C9: the `with_directories` constructor flag is stored on the instance
but never read: two runs that differ only in the flag produce identical
walk results (and counters, listing traces and start times), and the
`workspace_listing` output is the same whatever flag the constructor is
given. -/
theorem with_directories_flag_no_influence (b b2 : Bool) (tree : WTree) (t0 n : Nat) :
    (WorkspaceListing.walk tree t0 (WorkspaceListing.init n b)).results
      = (WorkspaceListing.walk tree t0 (WorkspaceListing.init n b2)).results
    ∧ (WorkspaceListing.walk tree t0 (WorkspaceListing.init n b)).counter
      = (WorkspaceListing.walk tree t0 (WorkspaceListing.init n b2)).counter
    ∧ (WorkspaceListing.walk tree t0 (WorkspaceListing.init n b)).listed
      = (WorkspaceListing.walk tree t0 (WorkspaceListing.init n b2)).listed
    ∧ (WorkspaceListing.walk tree t0 (WorkspaceListing.init n b)).start_time
      = (WorkspaceListing.walk tree t0 (WorkspaceListing.init n b2)).start_time
    ∧ workspace_listing_flag b tree t0 n = workspace_listing_flag b2 tree t0 n
    ∧ workspace_listing tree t0 n = workspace_listing_flag b tree t0 n := by
  have hflag : ∀ c d : Bool,
      workspace_listing_flag c tree t0 n = workspace_listing_flag d tree t0 n := by
    intro c d
    simp only [workspace_listing_flag]
    rw [walk_eq, walk_eq]
    rfl
  refine ⟨?_, ?_, ?_, ?_, hflag b b2, hflag false b⟩ <;> (rw [walk_eq, walk_eq]; try rfl)

/-- C10: whenever the root metadata fetch succeeds (as it always does in
the failure-free model), the root entry is appended to `results` before
the loop appends anything, so the first element of the list `walk`
returns on a fresh instance is the root entry, whatever the tree shape. -/
theorem walk_root_entry_first (tree : WTree) (t0 n : Nat) (b : Bool) :
    (WorkspaceListing.walk tree t0 (WorkspaceListing.init n b)).results.head?
      = some tree.info
    ∧ ∃ rest, (WorkspaceListing.walk tree t0 (WorkspaceListing.init n b)).results
        = tree.info :: rest := by
  rw [walk_eq]
  refine ⟨by simp [WorkspaceListing.init], ⟨(loopAdds [tree]).1, by simp [WorkspaceListing.init]⟩⟩

/-- C5 counterexample: walking `Tflat` (3 total entries, a directory root
with two non-directory children) leaves `_counter` at 2 — one completed
expansion task (the root) plus the final `_progress_report(None)` call —
not at 3. -/
theorem walk_counter_neq_total_entries_cex :
    (WorkspaceListing.walk Tflat 0 (WorkspaceListing.init 20 true)).counter = 2
    ∧ Tflat.size = 3
    ∧ ¬ (WorkspaceListing.walk Tflat 0 (WorkspaceListing.init 20 true)).counter
        = Tflat.size := by
  have h := walk_counter_eq Tflat 0 (WorkspaceListing.init 20 true)
  refine ⟨?_, by decide, ?_⟩
  · rw [h]
    decide
  · rw [h]
    decide

/-- C5 (amended): after `walk` over a well-formed tree with a DIRECTORY
root, `_counter` equals the number of completed expansion tasks — one per
DIRECTORY entry, the root included — plus one: the progress callback fires
once per completed expansion task and `walk` calls `_progress_report(None)`
once more at termination.  Equivalently, `_counter` is the number of
listing calls plus one; it equals the number K of total entries only when
every entry but one is a directory. -/
theorem walk_counter_counts_tasks (tree : WTree) (t0 n : Nat) (b : Bool)
    (hwf : tree.wfb = true) (hroot : isDirectory tree.info = true) :
    (WorkspaceListing.walk tree t0 (WorkspaceListing.init n b)).counter
      = (tree.allInfos.filter fun i => isDirectory i).length + 1
    ∧ (WorkspaceListing.walk tree t0 (WorkspaceListing.init n b)).counter
      = (WorkspaceListing.walk tree t0 (WorkspaceListing.init n b)).listed.length + 1 := by
  have hc := walk_counter_eq tree t0 (WorkspaceListing.init n b)
  rw [show (WorkspaceListing.init n b).counter = 0 from rfl] at hc
  have hfl : tree.expTrace.length
      = (tree.allInfos.filter fun i => isDirectory i).length := by
    have := congrArg Multiset.card (expTrace_filter tree hwf hroot)
    simpa using this
  have hll : (WorkspaceListing.walk tree t0 (WorkspaceListing.init n b)).listed.length
      = tree.expTrace.length := by
    have := congrArg Multiset.card (walk_listed_ms tree t0 (WorkspaceListing.init n b))
    rw [show (WorkspaceListing.init n b).listed = [] from rfl] at this
    simpa using this
  exact ⟨by omega, by omega⟩

/-- C5 witness: on `Tflat` the amended count is 1 directory + 1 = 2. -/
theorem walk_counter_counts_tasks_witness :
    (Tflat.wfb = true ∧ isDirectory Tflat.info = true)
    ∧ ((WorkspaceListing.walk Tflat 0 (WorkspaceListing.init 20 true)).counter
        = (Tflat.allInfos.filter fun i => isDirectory i).length + 1
      ∧ (WorkspaceListing.walk Tflat 0 (WorkspaceListing.init 20 true)).counter
        = (WorkspaceListing.walk Tflat 0 (WorkspaceListing.init 20 true)).listed.length + 1) :=
  ⟨⟨by decide, by decide⟩, walk_counter_counts_tasks Tflat 0 20 true (by decide) (by decide)⟩

/-- C8 counterexample: on the one-object tree `Tsing`, a second `walk` on
the same `WorkspaceListing` instance returns a result of size 2, not
`Tsing.size = 1`: `results` is created in `__init__` and never reset. -/
theorem walk_state_not_per_invocation_cex :
    (WorkspaceListing.walk Tsing 1 (WorkspaceListing.walk Tsing 0
        (WorkspaceListing.init 20 true))).results.length = 2
    ∧ Tsing.size = 1
    ∧ ¬ (WorkspaceListing.walk Tsing 1 (WorkspaceListing.walk Tsing 0
        (WorkspaceListing.init 20 true))).results.length = Tsing.size := by
  have h1 := walk_results_length Tsing 0 (WorkspaceListing.init 20 true) (by decide)
  have h2 := walk_results_length Tsing 1
    (WorkspaceListing.walk Tsing 0 (WorkspaceListing.init 20 true)) (by decide)
  rw [show (WorkspaceListing.init 20 true).results = [] from rfl] at h1
  have hs : Tsing.size = 1 := by decide
  simp only [List.length_nil, Nat.zero_add] at h1
  refine ⟨by omega, hs, by omega⟩

/-- C8 (amended): the walk state is created in `__init__`, not at the
start of each walk call: `start_time` is reset per walk, but `results` and
`_counter` persist across walks on the same instance, so a second walk
over the same tree returns a result of size 2·|T| and doubles the counter.
Per-invocation freshness holds only because `workspace_listing` constructs
a fresh `WorkspaceListing` inside every call. -/
theorem walk_state_persists_across_walks (tree : WTree) (t0 t1 n : Nat) (b : Bool)
    (hwf : tree.wfb = true) :
    (WorkspaceListing.walk tree t0 (WorkspaceListing.init n b)).results.length = tree.size
    ∧ (WorkspaceListing.walk tree t1 (WorkspaceListing.walk tree t0
        (WorkspaceListing.init n b))).results.length = 2 * tree.size
    ∧ (WorkspaceListing.walk tree t1 (WorkspaceListing.walk tree t0
        (WorkspaceListing.init n b))).start_time = some t1
    ∧ (WorkspaceListing.walk tree t1 (WorkspaceListing.walk tree t0
        (WorkspaceListing.init n b))).counter = 2 * (tree.expTrace.length + 1) := by
  have h1 := walk_results_length tree t0 (WorkspaceListing.init n b) hwf
  rw [show (WorkspaceListing.init n b).results = [] from rfl] at h1
  simp only [List.length_nil, Nat.zero_add] at h1
  have h2 := walk_results_length tree t1
    (WorkspaceListing.walk tree t0 (WorkspaceListing.init n b)) hwf
  have hc1 := walk_counter_eq tree t0 (WorkspaceListing.init n b)
  rw [show (WorkspaceListing.init n b).counter = 0 from rfl] at hc1
  have hc2 := walk_counter_eq tree t1
    (WorkspaceListing.walk tree t0 (WorkspaceListing.init n b))
  refine ⟨h1, by omega, by rw [walk_eq], by omega⟩

/-- C8 witness: on `Tdemo` (4 objects) the second walk yields 8 results. -/
theorem walk_state_persists_across_walks_witness :
    Tdemo.wfb = true
    ∧ ((WorkspaceListing.walk Tdemo 0 (WorkspaceListing.init 20 true)).results.length
        = Tdemo.size
      ∧ (WorkspaceListing.walk Tdemo 1 (WorkspaceListing.walk Tdemo 0
          (WorkspaceListing.init 20 true))).results.length = 2 * Tdemo.size
      ∧ (WorkspaceListing.walk Tdemo 1 (WorkspaceListing.walk Tdemo 0
          (WorkspaceListing.init 20 true))).start_time = some 1
      ∧ (WorkspaceListing.walk Tdemo 1 (WorkspaceListing.walk Tdemo 0
          (WorkspaceListing.init 20 true))).counter = 2 * (Tdemo.expTrace.length + 1)) :=
  ⟨by decide, walk_state_persists_across_walks Tdemo 0 1 20 true (by decide)⟩

/-- Any error `walkE` surfaces is one a remote listing call raised,
propagated unchanged. -/
theorem walkE_err_oracle (tree : WTree) (failAt : ObjectInfo → Option String)
    (t0 : Nat) (s : WalkState) (e2 : String)
    (h : (WorkspaceListing.walkE tree none failAt t0 s).2 = some e2) :
    ∃ i, failAt i = some e2 := by
  simp only [WorkspaceListing.walkE] at h
  split at h
  next s3 e3 heq =>
    simp only at h
    rw [← h]
    exact walkLoopE_err_oracle failAt (sizeL [tree]) [tree] _ e3 le_rfl (by rw [heq])
  next s3 heq => simp at h

/-- C3 (amended): a failing root metadata fetch propagates unchanged with
no entry recorded; a remote error inside an expansion task propagates
unchanged and aborts the entire walk — the caller of `walk` observes the
error and receives no result value — but the entries appended before the
failure (at least the root) remain retained in the instance's `results`
attribute; every surfaced error is one raised by a remote call; and with
no remote failure the walk runs to completion with no error, returning the
plain walk state. -/
theorem walk_error_propagation (tree : WTree) (failAt : ObjectInfo → Option String)
    (t0 : Nat) (s : WalkState) (e : String) :
    (WorkspaceListing.walkE tree (some e) failAt t0 s
        = ({ s with start_time := some t0 }, some e))
    ∧ (failAt tree.info = some e →
        WorkspaceListing.walkE tree none failAt t0 s
          = ({ s with start_time := some t0,
                      results := s.results ++ [tree.info],
                      counter := s.counter + 1,
                      listed := s.listed ++ [tree.info] }, some e))
    ∧ (∀ e2, (WorkspaceListing.walkE tree none failAt t0 s).2 = some e2 →
        ∃ i, failAt i = some e2)
    ∧ WorkspaceListing.walkE tree none (fun _ => none) t0 s
        = (WorkspaceListing.walk tree t0 s, none) := by
  refine ⟨rfl, ?_, fun e2 h => walkE_err_oracle tree failAt t0 s e2 h, ?_⟩
  · intro h
    simp only [WorkspaceListing.walkE]
    rw [walkLoopE, h]
  · simp only [WorkspaceListing.walkE]
    rw [walkLoopE_none_oracle (sizeL [tree]) [tree] _ le_rfl]
    rfl

/-- C3 counterexample: walking `Tsing` with the root listing raising
"bang", the error propagates unchanged to the caller, yet the root entry
appended before the failure stays in the instance's `results`: partial
progress IS retained. -/
theorem walk_partial_results_retained_cex :
    (WorkspaceListing.walkE Tsing none failb 0 (WorkspaceListing.init 20 true)).2
        = some "bang"
    ∧ (WorkspaceListing.walkE Tsing none failb 0 (WorkspaceListing.init 20 true)).1.results
        = [Tsing.info]
    ∧ ¬ (WorkspaceListing.walkE Tsing none failb 0
        (WorkspaceListing.init 20 true)).1.results = [] := by
  refine ⟨?_, ?_, ?_⟩ <;>
    simp [WorkspaceListing.walkE, walkLoopE, failb, Tsing, WorkspaceListing.init, WTree.info]

/-- C3 witness: the root-task failure case of the amended claim at the
concrete input `Tsing`/`failb`. -/
theorem walk_error_propagation_witness :
    failb Tsing.info = some "bang"
    ∧ WorkspaceListing.walkE Tsing none failb 0 (WorkspaceListing.init 20 true)
        = ({ WorkspaceListing.init 20 true with
              start_time := some 0,
              results := (WorkspaceListing.init 20 true).results ++ [Tsing.info],
              counter := (WorkspaceListing.init 20 true).counter + 1,
              listed := (WorkspaceListing.init 20 true).listed ++ [Tsing.info] },
           some "bang") :=
  ⟨by decide,
   (walk_error_propagation Tsing failb 0 (WorkspaceListing.init 20 true) "bang").2.1
     (by decide)⟩
